import Mathlib

/-!
Verification of the shapelet-discovery pipeline
(`src/find_shapelets_simpilified.py`, class `ShapeletFinder`).

Modelling conventions:
* Machine floats are modelled as real numbers (`ℝ`); integer quantities as
  `ℕ`/`ℤ` (Python 2 integer division `/` on ints is floor division, which on
  non-negative values is `Nat.div`).
* A multivariate time series is stored axis-major: `Series := List (List ℝ)`,
  one time-list per axis (numpy stores `(time, axes)`; every operation of the
  pipeline factors through the axes independently, so the axis-major view is a
  faithful re-indexing).  `shape0` is the number of samples (`ts.shape[0]`).
* A shapelet candidate is likewise axis-major: a list (over the chosen
  dimension subset) of time-lists.
* Fallible operations (numpy `ValueError` / `IndexError` / `KeyError`) are
  modelled with `Option`, exceptions of a constructor with `Except`.
* Functions imported from repository modules that are not part of the two
  sources (`shapelet_utils.subsequences`, `shapelet_utils.z_normalize`,
  `shapelet_utils.distance_matrix3D`, `clustering.Clustering`,
  `classifier.ShapeletClassifier.fit_precomputed`, `utilities.powerset`) are
  modelled from the specification; each such definition carries a doc comment
  starting with "Modelled from the spec".
* `scipy.signal.argrelmin/argrelmax` results (the four extrema index sets per
  series and axis) are passed to the pruning functions as parameters
  `mn mx dn dx : ℕ → ℕ → List ℕ` (series id → axis → sorted index list),
  mirroring the memoized caches `self.minima`, `self.maxima`,
  `self.derivative_minima`, `self.derivative_maxima` set up in `reset`.
-/

namespace ShapeletFinder

/-- A multivariate time series, axis-major: one list of samples per axis. -/
abbrev Series := List (List ℝ)

/-- A shapelet candidate, axis-major: one time-list per selected dimension. -/
abbrev Cand := List (List ℝ)

/-- Number of samples of a series (`ts.shape[0]`; all axes have equal length). -/
def shape0 (ts : Series) : ℕ := (ts.headD []).length

/-- The configuration fields stored by `ShapeletFinder.__init__`. -/
structure Config where
  d_max : ℝ
  N_max : ℕ
  w_ext : ℕ
  sigma_min : Option ℝ
  sl_max : ℕ

/-- `ShapeletFinder.__init__` (lines 29-47): it assigns the five configuration
fields and calls `reset`; it performs no validation of any kind, so the
constructor never raises.  The `Except` result records where a configuration
error could be reported; the code always returns `ok`. -/
def init (d_max : ℝ) (N_max : ℕ) (w_ext : ℕ) (sigma_min : Option ℝ)
    (sl_max : ℕ) : Except String Config :=
  Except.ok ⟨d_max, N_max, w_ext, sigma_min, sl_max⟩

/-- `calc_windows` (lines 88-100):
`[(sl_max * i) / N_max for i in range(1, N_max + 1)]` with Python 2 floor
division on ints. -/
def calc_windows (sl_max N_max : ℕ) : List ℕ :=
  (List.range N_max).map (fun i => sl_max * (i + 1) / N_max)

/-- The fields of a fitted `ShapeletClassifier` that the selection logic in
`findingshapelets` reads (`information_gain`, `f_c_delta`) together with the
decision threshold `delta`.  The comparison code is generic in the numeric
type (Python `cmp` is duck-typed); the pipeline instantiates `α := ℝ`. -/
structure PyClassifier (α : Type) where
  information_gain : α
  f_c_delta : α
  delta : α
  deriving Repr, DecidableEq

/-- `cmp_classifier` (lines 102-123): the inner `cmp` returns `-1` when
`gain_x > gain_y or (gain_x == gain_y and f_c_delta1 < f_c_delta2)`, i.e. when
`classifier1` beats `classifier2`, and `1` otherwise.  It is a single strict
lexicographic comparison, never returning `0`. -/
def cmp_classifier {α : Type} [LinearOrder α] (c1 c2 : PyClassifier α) : ℤ :=
  if c1.information_gain > c2.information_gain ∨
      (c1.information_gain = c2.information_gain ∧ c1.f_c_delta < c2.f_c_delta)
  then -1 else 1

/-- One step of the best-so-far loop (lines 180-185): the incumbent is
replaced by the new classifier when `cmp_classifier(bsf, classifier) > 0`;
when the incumbent is `None`, reading `information_gain` raises
`AttributeError`, which is caught and makes the new classifier the incumbent. -/
def bsf_update {α : Type} [LinearOrder α] (bsf : Option (PyClassifier α))
    (c : PyClassifier α) : Option (PyClassifier α) :=
  match bsf with
  | none => some c
  | some b => if cmp_classifier b c > 0 then some c else some b

/-- The best-so-far fold over the classifier candidates of one label, in
encounter order. -/
def bsf_fold {α : Type} [LinearOrder α] (bsf : Option (PyClassifier α))
    (cands : List (PyClassifier α)) : Option (PyClassifier α) :=
  cands.foldl bsf_update bsf

/-- Python `min` over a non-empty list of window lengths (`min(self.windows)`;
Python raises on an empty list — the `[]` branch is never taken by the code
paths modelled here). -/
def pymin (l : List ℕ) : ℕ :=
  match l with
  | [] => 0
  | x :: xs => xs.foldl min x

/-- Python/numpy `min` over a non-empty list of reals (`.min(axis=1)` rows;
numpy raises on an empty axis — the `[]` branch is never taken when the
window length is at most the series length). -/
noncomputable def pyminR (l : List ℝ) : ℝ :=
  match l with
  | [] => 0
  | x :: xs => xs.foldl min x

/-- Modelled from the spec: `shapelet_utils.subsequences` (absent from src/) —
"for every series, extract every contiguous subsequence of length `w`
(stride 1)".  Axis-major: window `i` keeps samples `i, …, i+w-1` of every
axis; there are `shape0 ts - w + 1` windows. -/
def subsequences (ts : Series) (w : ℕ) : List Cand :=
  (List.range (shape0 ts + 1 - w)).map
    (fun i => ts.map (fun axis => (axis.drop i).take w))

/-- Arithmetic mean of a list of reals (numpy `mean`; `0` on the empty list
via division by zero). -/
noncomputable def npMean (xs : List ℝ) : ℝ := xs.sum / xs.length

/-- Population standard deviation of a list of reals (numpy `std`, `ddof=0`). -/
noncomputable def npStd (xs : List ℝ) : ℝ :=
  Real.sqrt ((xs.map (fun x => (x - npMean xs) ^ 2)).sum / xs.length)

/-- Modelled from the spec: the per-axis z-normalization rule of
`shapelet_utils.z_normalize` (absent from src/) — "subtract the per-axis
mean, divide by the per-axis standard deviation.  If an axis's standard
deviation is below `sigma_min`, leave that axis's values unnormalized"; a
zero standard deviation likewise means "do not normalize that axis". -/
noncomputable def zNormAxis (sig : ℝ) (xs : List ℝ) : List ℝ :=
  if npStd xs < sig ∨ npStd xs = 0 then xs
  else xs.map (fun x => (x - npMean xs) / npStd xs)

/-- Modelled from the spec: `shapelet_utils.z_normalize` applied to a batch of
subsequences — every subsequence is z-normalized independently, per axis. -/
noncomputable def z_normalize (sig : ℝ) (subs : List Cand) : List Cand :=
  subs.map (fun s => s.map (zNormAxis sig))

/-- `precompute_z_norm` (lines 214-223): the cache entry
`self.z_data[ts_id, w] = z_normalize(subsequences(ts, w))`. -/
noncomputable def z_data (sig : ℝ) (data : List Series) (ts_id w : ℕ) :
    List Cand :=
  z_normalize sig (subsequences (data.getD ts_id []) w)

/-- The per-axis standard deviations of all length-`w` subsequences of a raw
series: `subsequences(ts, w).std(axis=1)` flattened (one value per
(subsequence, axis) pair). -/
noncomputable def subSeqStds (ts : Series) (w : ℕ) : List ℝ :=
  (subsequences ts w).flatMap (fun s => s.map npStd)

/-- `estimate_sigma_min` (lines 60-73): when `sigma_min` is `None`, start from
`0` and, for every training example whose label set is empty, take the
maximum with the largest per-axis subsequence standard deviation at the
smallest tested window length; a supplied `sigma_min` is kept unchanged.
(numpy `.max()` of the non-empty std array equals the `0`-seeded fold below
because standard deviations are non-negative.) -/
noncomputable def estimate_sigma_min (sig : Option ℝ) (data : List Series)
    (target : List (List String)) (windows : List ℕ) : ℝ :=
  match sig with
  | some s => s
  | none =>
    (data.zip target).foldl
      (fun acc p =>
        if p.2.isEmpty then
          max acc ((subSeqStds p.1 (pymin windows)).foldl max 0)
        else acc) 0

/-- Insertion of one element into a sorted list (ascending). -/
def insort (x : ℤ) : List ℤ → List ℤ
  | [] => [x]
  | y :: ys => if x ≤ y then x :: y :: ys else y :: insort x ys

/-- Insertion sort, ascending. -/
def sortList (l : List ℤ) : List ℤ := l.foldr insort []

/-- numpy `np.unique`: the sorted list of distinct values. -/
def npUnique (l : List ℤ) : List ℤ := (sortList l).dedup

/-- The elementwise index transformation of `prune_shapelet_candidates`
(lines 244-246): `ids = ids - shapelet_length // 2`, then
`ids[ids < 0] = 0`, then `ids[ids > T - w] = T - w` (all over numpy ints,
i.e. over `ℤ`). -/
def clampShift (T w : ℕ) (i : ℕ) : ℤ :=
  let s : ℤ := (i : ℤ) - (w / 2 : ℕ)
  let s' : ℤ := if s < 0 then 0 else s
  if s' > (T : ℤ) - (w : ℤ) then (T : ℤ) - (w : ℤ) else s'

/-- The surviving start offsets of one series in `prune_shapelet_candidates`
(lines 238-247): collect, for every axis of the dimension subset, the four
extrema index lists; drop empty ones; `np.concatenate` them (raising
`ValueError`, i.e. `none`, when every list is empty); shift by
`- shapelet_length // 2`; clamp into `[0, T - w]`; `np.unique`. -/
def prune_ids (mn mx dn dx : ℕ → List ℕ) (dims : List ℕ) (w T : ℕ) :
    Option (List ℤ) :=
  let idLists := dims.flatMap (fun a => [mn a, mx a, dn a, dx a])
  let nonempty := idLists.filter (fun l => !l.isEmpty)
  if nonempty.isEmpty then none
  else some (npUnique ((nonempty.flatten).map (fun i => clampShift T w i)))

/-- Restriction of a full-dimension candidate to a dimension subset
(`np.concatenate([... [:, :, a] ... for a in dim_s], axis=-1)`): keep the
selected axes, in subset order. -/
def restrictDims (dims : List ℕ) (s : Cand) : Cand :=
  dims.map (fun a => s.getD a [])

/-- The candidates one series contributes in `prune_shapelet_candidates`
(lines 248-252): the z-normalized subsequences restricted to `dims`, indexed
by the surviving offsets (`shapelets[ids]`).  `none` when the offset
computation raised. -/
noncomputable def series_candidates (sig : ℝ) (ts : Series)
    (mn mx dn dx : ℕ → List ℕ) (dims : List ℕ) (w : ℕ) : Option (List Cand) :=
  (prune_ids mn mx dn dx dims w (shape0 ts)).map
    (fun ids =>
      ids.map (fun i =>
        ((z_normalize sig (subsequences ts w)).map (restrictDims dims)).getD
          i.toNat []))

/-- Whether pruning succeeds on every series of the data set (no series hits
the `np.concatenate` `ValueError`). -/
def prune_ok (data : List Series) (mn mx dn dx : ℕ → ℕ → List ℕ)
    (dims : List ℕ) (w : ℕ) : Bool :=
  (List.range data.length).all
    (fun i =>
      (prune_ids (mn i) (mx i) (dn i) (dx i) dims w
        (shape0 (data.getD i []))).isSome)

/-- The raw (pre-clustering) candidate pool of a label in
`prune_shapelet_candidates` (lines 250-258): the concatenation, over the
series that carry the label, of the series' surviving candidates. -/
noncomputable def prune_pool (sig : ℝ) (data : List Series)
    (target : List (List String)) (mn mx dn dx : ℕ → ℕ → List ℕ)
    (dims : List ℕ) (w : ℕ) (L : String) : List Cand :=
  (List.range data.length).flatMap
    (fun i =>
      if (target.getD i []).contains L then
        (series_candidates sig (data.getD i []) (mn i) (mx i) (dn i) (dx i)
          dims w).getD []
      else [])

/-- An extrema cache with no extremum on any axis (what `argrelmin` /
`argrelmax` return on, e.g., a strictly monotone ramp and its constant
derivative). -/
def noExtrema : ℕ → List ℕ := fun _ => []

/-- A per-series family of empty extrema caches. -/
def noExtremaFam : ℕ → ℕ → List ℕ := fun _ _ => []

/-- Squared Euclidean distance between two equal-shape candidates (sum over
axes and time of squared differences). -/
noncomputable def sqDist (s t : Cand) : ℝ :=
  ((s.zip t).map
    (fun p => ((p.1.zip p.2).map (fun q => (q.1 - q.2) ^ 2)).sum)).sum

/-- Modelled from the spec: the pairwise distance of
`shapelet_utils.distance_matrix3D` (absent from src/) — "Distance is
Euclidean over the concatenated per-axis normalized values of equal-length
sequences". -/
noncomputable def euclid (s t : Cand) : ℝ := Real.sqrt (sqDist s t)

/-- Modelled from the spec: the neighbour count used by
`clustering.Clustering` (absent from src/) to pick a representative — the
number of pool members within distance `d_max`. -/
noncomputable def nnCount (dm : ℝ) (pool : List Cand) (c : Cand) : ℕ :=
  (pool.filter (fun p => decide (euclid c p ≤ dm))).length

/-- Modelled from the spec: representative selection — "the point with the
most neighbors within `d_max`, ties broken by a stable ordering key" (the
first such point in pool order). -/
noncomputable def pickRep (dm : ℝ) (pool : List Cand) : Option Cand :=
  match pool with
  | [] => none
  | p :: ps =>
    some (ps.foldl
      (fun best q =>
        if nnCount dm pool q > nnCount dm pool best then q else best) p)

/-- Modelled from the spec: one round of `clustering.Clustering` consumes the
representative and every remaining point within `d_max` of it; the fuel
argument (initially the pool size) bounds the number of rounds, and the
representative is removed explicitly so every round shrinks the pool. -/
noncomputable def clusterAux (dm : ℝ) : ℕ → List Cand → List Cand
  | 0, _ => []
  | fuel + 1, pool =>
    match pickRep dm pool with
    | none => []
    | some rep =>
      rep ::
        clusterAux dm fuel
          (pool.filter
            (fun p => decide (¬(euclid rep p ≤ dm)) && decide (p ≠ rep)))

/-- Modelled from the spec: `ShapeletFinder.cluster` (lines 125-135) /
`clustering.Clustering.fit` + `nn_centers` (absent from src/) — greedy radius
clustering returning the list of representatives. -/
noncomputable def cluster (dm : ℝ) (pool : List Cand) : List Cand :=
  clusterAux dm pool.length pool

/-- `prune_shapelet_candidates` (lines 225-262): per-label pool of clustered
representatives for one `(dimension subset, window)` pair; `none` when the
offset computation of some series raised. -/
noncomputable def prune_shapelet_candidates (dm sig : ℝ) (data : List Series)
    (target : List (List String)) (mn mx dn dx : ℕ → ℕ → List ℕ)
    (dims : List ℕ) (w : ℕ) : Option (String → List Cand) :=
  if prune_ok data mn mx dn dx dims w then
    some (fun L => cluster dm (prune_pool sig data target mn mx dn dx dims w L))
  else none

/-- Association-list lookup with structural keys, modelling a Python dict
whose keys are written at most once. -/
def dictFind (k : String × ℕ) : List ((String × ℕ) × ℝ) → Option ℝ
  | [] => none
  | (k', v) :: es => if k = k' then some v else dictFind k es

/-- The write order of the cursor `i` in `precompute_bmd` (lines 206-211):
for every label of `unique_labels` in order, the pairs
`(label, shapelet_id)` for the label's shapelets. -/
def bmdKeys (labels : List String) (shap : String → List Cand) :
    List (String × ℕ) :=
  labels.flatMap (fun L => (List.range (shap L).length).map (fun sid => (L, sid)))

/-- The vector `d_m = distance_matrix3D(muh, ts).min(axis=1)` of
`precompute_bmd` (lines 202-205): `muh` is the concatenation of the labels'
shapelet lists, and each row's minimum over the subsequence positions is the
shapelet's best-matching distance to the series. -/
noncomputable def bmdDm (labels : List String) (shap : String → List Cand)
    (tsSubs : List Cand) : List ℝ :=
  ((labels.map shap).flatten).map (fun sh => pyminR (tsSubs.map (euclid sh)))

/-- The dict entries written by the cursor loop of `precompute_bmd`
(lines 206-211) for one `(series, dimension subset, window)` group:
`d_m[i]` is assigned to the key `(label, shapelet_id)` in write order. -/
noncomputable def bmdEntry (labels : List String) (shap : String → List Cand)
    (tsSubs : List Cand) (label : String) (sid : ℕ) : Option ℝ :=
  dictFind (label, sid) ((bmdKeys labels shap).zip (bmdDm labels shap tsSubs))

/-- `precompute_bmd` (lines 190-212): the value the cache
`self.dist_shapelet_ts` holds under the key
`(ts_id, shapelet_id, label, shapelet_length, axis)`.  The loops over
`ts_id`, `axis` and `shapelet_length` write disjoint key groups, so the final
dict is determined by the per-group entry; within a group, `ts` is the
z-normalized subsequence tensor of the series restricted to the subset. -/
noncomputable def dist_shapelet_ts (sig : ℝ) (data : List Series)
    (labels : List String) (shapMap : String → List ℕ → ℕ → List Cand)
    (ts_id sid : ℕ) (label : String) (w : ℕ) (dims : List ℕ) : Option ℝ :=
  bmdEntry labels (fun L => shapMap L dims w)
    ((z_data sig data ts_id w).map (restrictDims dims)) label sid

/-- Binary entropy of a label proportion, in bits; `H(0) = H(1) = 0`.
Used by the spec-modelled information gain. -/
noncomputable def entropyP (p : ℝ) : ℝ :=
  if p = 0 ∨ p = 1 then 0
  else -(p * Real.logb 2 p + (1 - p) * Real.logb 2 (1 - p))

/-- Entropy of a binary target list (proportion of `1` entries). -/
noncomputable def entropyOf (target : List ℕ) : ℝ :=
  entropyP ((target.filter (fun t => t = 1)).length / target.length)

/-- Modelled from the spec: the information gain of splitting the
(BMD, target) pairs at threshold `delta` —
`gain = H(target) − [p_low·H(target|low) + p_high·H(target|high)]`, the low
side holding the examples whose BMD is at most `delta`. -/
noncomputable def infoGain (dist_X : List ℝ) (target : List ℕ) (delta : ℝ) : ℝ :=
  let pairs := dist_X.zip target
  let low := pairs.filter (fun p => decide (p.1 ≤ delta))
  let high := pairs.filter (fun p => decide (¬(p.1 ≤ delta)))
  entropyOf target -
    ((low.length / pairs.length) * entropyOf (low.map Prod.snd) +
      (high.length / pairs.length) * entropyOf (high.map Prod.snd))

/-- Modelled from the spec: the candidate split points of
`classifier.ShapeletClassifier.fit_precomputed` (absent from src/) — "all
candidate split points between consecutive values of the sorted BMD vector
(including implicit boundary points below the minimum and above the
maximum)". -/
noncomputable def candidateSplits (dist_X : List ℝ) : List ℝ :=
  match (dist_X.mergeSort (fun a b => decide (a ≤ b))) with
  | [] => []
  | x :: xs =>
    (x - 1) ::
      ((x :: xs).zip xs).map (fun p => (p.1 + p.2) / 2) ++
        [(x :: xs).getLast (by simp) + 1]

/-- Modelled from the spec: choose the split maximizing information gain
(first best in split order). -/
noncomputable def bestDelta (dist_X : List ℝ) (target : List ℕ) : ℝ :=
  match candidateSplits dist_X with
  | [] => 0
  | s :: ss =>
    ss.foldl
      (fun best t =>
        if infoGain dist_X target t > infoGain dist_X target best then t
        else best) s

/-- Modelled from the spec: `f_c_delta` — "the margin between the nearest
pair of opposite-target BMD values straddling the chosen boundary". -/
noncomputable def fcMargin (dist_X : List ℝ) (target : List ℕ) (delta : ℝ) : ℝ :=
  let pairs := dist_X.zip target
  pyminR
    (pairs.flatMap
      (fun p =>
        pairs.filterMap
          (fun q =>
            if p.2 ≠ q.2 ∧ p.1 ≤ delta ∧ ¬(q.1 ≤ delta) then some (q.1 - p.1)
            else none)))

/-- Modelled from the spec: `classifier.ShapeletClassifier.fit_precomputed`
(absent from src/) — fit the threshold `delta` on the precomputed BMD vector,
recording the achieved information gain and the margin `f_c_delta`. -/
noncomputable def fit_precomputed (dist_X : List ℝ) (target : List ℕ) :
    PyClassifier ℝ :=
  let delta := bestDelta dist_X target
  ⟨infoGain dist_X target delta, fcMargin dist_X target delta, delta⟩

/-- Time length of a candidate (`shapelets[0].shape[0]` in axis-major view). -/
def candLen (c : Cand) : ℕ := (c.headD []).length

/-- `build_classifier` (lines 264-287): one classifier per shapelet of the
pool, fitted on the cached BMD feature vector of the training series;
`shapelets[0]` raises `IndexError` (`none`) on an empty pool. -/
noncomputable def build_classifier
    (cache : ℕ → ℕ → String → ℕ → List ℕ → ℝ) (shapelets : List Cand)
    (target : List ℕ) (label : String) (dims : List ℕ) (nSeries : ℕ) :
    Option (List (PyClassifier ℝ)) :=
  match shapelets with
  | [] => none
  | s0 :: _ =>
    some
      ((List.range shapelets.length).map
        (fun sid =>
          fit_precomputed
            ((List.range nSeries).map
              (fun ts_id => cache ts_id sid label (candLen s0) dims))
            target))

/-- `get_unique_targets` (lines 75-86) builds a Python set of the labels; its
iteration order is a fixed function of the insertion history in CPython 2, so
the model fixes it as first-occurrence order. -/
def uniqueLabels (target : List (List String)) : List String :=
  target.flatten.dedup

/-- Modelled from the spec: `utilities.powerset` (absent from src/) — all
subsets of the axis index set in a fixed order; `findingshapelets` drops the
empty set (`[1:]` on line 154, plus the `()` guard on line 160). -/
def dimensionSubsets (nAxes : ℕ) : List (List ℕ) :=
  (List.range nAxes).sublists.filter (fun s => !s.isEmpty)

/-- The binary target vector of a label (line 172):
`[int(label in x) for x in target]`. -/
def binaryTarget (target : List (List String)) (L : String) : List ℕ :=
  target.map (fun row => if row.contains L then 1 else 0)

/-- `findingshapelets` (lines 137-188): the full pipeline.  Inputs are the
data, the per-series label sets, and the four extrema caches (pure functions
of the data and `w_ext`, see `reset`).  The result maps every unique label to
the best-so-far classifier and the label's binary target vector; `none`
models a raised exception (pruning `ValueError` or an empty-pool
`IndexError`). -/
noncomputable def findingshapelets (cfg : Config) (data : List Series)
    (target : List (List String)) (mn mx dn dx : ℕ → ℕ → List ℕ) :
    Option (List (String × (Option (PyClassifier ℝ) × List ℕ))) :=
  let windows := calc_windows cfg.sl_max cfg.N_max
  let sig := estimate_sigma_min cfg.sigma_min data target windows
  let labels := uniqueLabels target
  let dimsSubsets := dimensionSubsets (data.getD 0 []).length
  if _hok : ∀ dims ∈ dimsSubsets, ∀ w ∈ windows,
      prune_ok data mn mx dn dx dims w = true then
    let shapMap : String → List ℕ → ℕ → List Cand := fun L dims w =>
      cluster cfg.d_max (prune_pool sig data target mn mx dn dx dims w L)
    let cache : ℕ → ℕ → String → ℕ → List ℕ → ℝ := fun ts_id sid label w dims =>
      (dist_shapelet_ts sig data labels shapMap ts_id sid label w dims).getD 0
    (labels.mapM
      (fun L =>
        ((dimsSubsets.mapM
          (fun dims =>
            (windows.mapM
              (fun w =>
                build_classifier cache (shapMap L dims w) (binaryTarget target L)
                  L dims data.length)))).map
          (fun css =>
            (L, (bsf_fold none (css.flatten.flatten), binaryTarget target L))))))
  else none

/-! ## Helper lemmas -/

theorem mem_insort (x y : ℤ) (l : List ℤ) :
    y ∈ insort x l ↔ y = x ∨ y ∈ l := by
  induction l with
  | nil => simp [insort]
  | cons z zs ih =>
    simp only [insort]
    split
    · simp [or_comm, or_assoc, or_left_comm]
    · simp [ih, or_comm, or_assoc, or_left_comm]

theorem mem_sortList (x : ℤ) (l : List ℤ) : x ∈ sortList l ↔ x ∈ l := by
  induction l with
  | nil => simp [sortList]
  | cons z zs ih => simp [sortList, mem_insort]; rw [show zs.foldr insort [] = sortList zs from rfl, ih]

theorem length_insort (x : ℤ) (l : List ℤ) :
    (insort x l).length = l.length + 1 := by
  induction l with
  | nil => simp [insort]
  | cons z zs ih =>
    simp only [insort]
    split
    · simp
    · simp [ih]

theorem length_sortList (l : List ℤ) : (sortList l).length = l.length := by
  induction l with
  | nil => rfl
  | cons z zs ih =>
    simp only [sortList, List.foldr_cons] at *
    rw [length_insort, ih, List.length_cons]

theorem mem_npUnique (x : ℤ) (l : List ℤ) : x ∈ npUnique l ↔ x ∈ l := by
  rw [npUnique, List.mem_dedup, mem_sortList]

theorem npUnique_nodup (l : List ℤ) : (npUnique l).Nodup := List.nodup_dedup _

theorem npUnique_ne_nil (l : List ℤ) (h : l ≠ []) : npUnique l ≠ [] := by
  obtain ⟨x, hx⟩ := List.exists_mem_of_ne_nil l h
  exact List.ne_nil_of_mem ((mem_npUnique x l).mpr hx)

theorem mem_flatten_filter_nonempty (x : ℤ) (l : List (List ℕ)) :
    (x : ℤ) ∈ ((l.filter (fun t => !t.isEmpty)).flatten.map
        (fun i => clampShift T w i)) ↔
      ∃ j ∈ l.flatten, x = clampShift T w j := by
  simp only [List.mem_map, List.mem_flatten, List.mem_filter]
  constructor
  · rintro ⟨j, ⟨t, ⟨ht, _⟩, hjt⟩, hx⟩
    exact ⟨j, ⟨t, ht, hjt⟩, hx.symm⟩
  · rintro ⟨j, ⟨t, ht, hjt⟩, hx⟩
    refine ⟨j, ⟨t, ⟨ht, ?_⟩, hjt⟩, hx.symm⟩
    simp [List.isEmpty_iff]
    rintro rfl
    exact absurd hjt (List.not_mem_nil j)

theorem clampShift_bounds (T w i : ℕ) (h : w ≤ T) :
    0 ≤ clampShift T w i ∧ clampShift T w i ≤ (T : ℤ) - (w : ℤ) := by
  unfold clampShift
  dsimp only
  constructor <;> (split <;> split <;> omega)

/-- The chunk a series contributes to a label's raw pool is contained in the
pool. -/
theorem mem_prune_pool (sig : ℝ) (data : List Series)
    (target : List (List String)) (mn mx dn dx : ℕ → ℕ → List ℕ)
    (dims : List ℕ) (w i : ℕ) (L : String) (c : Cand)
    (hi : i < data.length) (hL : (target.getD i []).contains L = true)
    (hc : c ∈ (series_candidates sig (data.getD i []) (mn i) (mx i) (dn i)
      (dx i) dims w).getD []) :
    c ∈ prune_pool sig data target mn mx dn dx dims w L := by
  unfold prune_pool
  refine List.mem_flatMap.mpr ⟨i, List.mem_range.mpr hi, ?_⟩
  rw [hL]
  simpa using hc

theorem prune_ids_some_ne_nil (mn mx dn dx : ℕ → List ℕ) (dims : List ℕ)
    (w T : ℕ) (out : List ℤ)
    (h : prune_ids mn mx dn dx dims w T = some out) : out ≠ [] := by
  unfold prune_ids at h
  dsimp only at h
  split at h
  · exact Option.noConfusion h
  · rename_i hne
    have hX := Option.some_inj.mp h
    subst hX
    apply npUnique_ne_nil
    intro hmapnil
    rw [List.map_eq_nil_iff, List.flatten_eq_nil_iff] at hmapnil
    have hfil : (dims.flatMap (fun a => [mn a, mx a, dn a, dx a])).filter
        (fun l => !l.isEmpty) ≠ [] := by
      simpa [List.isEmpty_iff] using hne
    obtain ⟨t, ht⟩ := List.exists_mem_of_ne_nil _ hfil
    have hpred := List.of_mem_filter ht
    have htne : t ≠ [] := by simpa [List.isEmpty_iff] using hpred
    exact htne (hmapnil t ht)

theorem cluster_ne_nil (dm : ℝ) (pool : List Cand) (h : pool ≠ []) :
    cluster dm pool ≠ [] := by
  rcases pool with _ | ⟨p, ps⟩
  · exact absurd rfl h
  · simp [cluster, clusterAux, pickRep]

theorem foldl_max_shift (l : List ℝ) (a b : ℝ) :
    l.foldl max (max a b) = max a (l.foldl max b) := by
  induction l generalizing b with
  | nil => rfl
  | cons x xs ih =>
    simp only [List.foldl_cons]
    rw [max_assoc, ih]

theorem le_foldl_max (l : List ℝ) (a : ℝ) : a ≤ l.foldl max a := by
  induction l generalizing a with
  | nil => exact le_refl a
  | cons x xs ih =>
    exact le_trans (le_max_left a x) (ih (max a x))

theorem mem_le_foldl_max (l : List ℝ) (a x : ℝ) (hx : x ∈ l) :
    x ≤ l.foldl max a := by
  induction l generalizing a with
  | nil => exact absurd hx (List.not_mem_nil x)
  | cons y ys ih =>
    rcases List.mem_cons.mp hx with rfl | h
    · exact le_trans (le_max_right a x) (le_foldl_max ys (max a x))
    · exact ih (max a y) h

/-- The running-maximum loop of `estimate_sigma_min` equals a single maximum
over the concatenated standard deviations of the unlabeled examples. -/
theorem estimate_fold (g : Series → List ℝ)
    (l : List (Series × List String)) (acc : ℝ) (hacc : 0 ≤ acc) :
    l.foldl
        (fun acc p =>
          if p.2.isEmpty then max acc ((g p.1).foldl max 0) else acc) acc =
      ((l.filter (fun p => p.2.isEmpty)).flatMap (fun p => g p.1)).foldl max
        acc := by
  induction l generalizing acc with
  | nil => rfl
  | cons p ps ih =>
    simp only [List.foldl_cons, List.filter_cons]
    by_cases hp : p.2.isEmpty
    · rw [if_pos hp, if_pos hp]
      rw [List.flatMap_cons, List.foldl_append]
      have hshift : max acc ((g p.1).foldl max 0) = (g p.1).foldl max acc := by
        rw [← foldl_max_shift, max_eq_left hacc]
      rw [hshift]
      exact ih ((g p.1).foldl max acc)
        (le_trans hacc (le_foldl_max (g p.1) acc))
    · rw [if_neg hp, if_neg hp]
      exact ih acc hacc

/-- Looking up a key inside its own label block of the BMD cache hits the
entry aligned with the shapelet's index. -/
theorem dictFind_block_hit (L : String) (f : Cand → ℝ) (xs : List Cand)
    (off sid : ℕ) (rest : List ((String × ℕ) × ℝ)) (h : sid < xs.length) :
    dictFind (L, off + sid)
      ((((List.range xs.length).map (fun j => (L, off + j))).zip (xs.map f))
        ++ rest) = some (f (xs.getD sid [])) := by
  induction xs generalizing off sid rest with
  | nil => exact absurd h (by simp)
  | cons x xs ih =>
    rw [List.length_cons, List.range_succ_eq_map]
    simp only [List.map_cons, List.map_map, List.zip_cons_cons,
      List.cons_append, Function.comp]
    rcases sid with _ | s
    · simp [dictFind]
    · simp only [dictFind]
      rw [if_neg (by
        intro hcon
        injection hcon with h1 h2
        omega)]
      have hcomp :
          ((List.range xs.length).map ((fun j => (L, off + j)) ∘ Nat.succ))
            = (List.range xs.length).map (fun j => (L, (off + 1) + j)) := by
        apply List.map_congr_left
        intro j _
        show (L, off + (j + 1)) = (L, (off + 1) + j)
        rw [Prod.mk.injEq]
        exact ⟨rfl, by omega⟩
      rw [hcomp]
      have hk : off + (s + 1) = (off + 1) + s := by omega
      rw [hk]
      rw [ih (off + 1) s rest
        (by simp only [List.length_cons] at h; omega)]
      simp

/-- Looking up a key whose label differs from the block's label skips the
whole block. -/
theorem dictFind_block_miss (L M : String) (k : ℕ) (f : Cand → ℝ)
    (xs : List Cand) (off : ℕ) (rest : List ((String × ℕ) × ℝ))
    (hne : M ≠ L) :
    dictFind (M, k)
      ((((List.range xs.length).map (fun j => (L, off + j))).zip (xs.map f))
        ++ rest) = dictFind (M, k) rest := by
  induction xs generalizing off with
  | nil => simp
  | cons x xs ih =>
    rw [List.length_cons, List.range_succ_eq_map]
    simp only [List.map_cons, List.map_map, List.zip_cons_cons,
      List.cons_append, Function.comp]
    simp only [dictFind]
    rw [if_neg (by
      intro hcon
      injection hcon with h1 h2
      exact hne h1)]
    have hcomp :
        ((List.range xs.length).map ((fun j => (L, off + j)) ∘ Nat.succ))
          = (List.range xs.length).map (fun j => (L, (off + 1) + j)) := by
      apply List.map_congr_left
      intro j _
      show (L, off + (j + 1)) = (L, (off + 1) + j)
      rw [Prod.mk.injEq]
      exact ⟨rfl, by omega⟩
    rw [hcomp]
    exact ih (off + 1)

/-- The BMD cursor bookkeeping of `precompute_bmd`: for a label occurring in
the (duplicate-free) label list and a shapelet index inside the label's
list, the cache entry is the minimum distance of exactly that shapelet to
the series' subsequences. -/
theorem bmdEntry_eq (labels : List String) (shap : String → List Cand)
    (tsSubs : List Cand) (L : String) (sid : ℕ) (hnd : labels.Nodup)
    (hmem : L ∈ labels) (hsid : sid < (shap L).length) :
    bmdEntry labels shap tsSubs L sid =
      some (pyminR (tsSubs.map (euclid ((shap L).getD sid [])))) := by
  induction labels with
  | nil => exact absurd hmem (List.not_mem_nil L)
  | cons M ls ih =>
    unfold bmdEntry bmdKeys bmdDm
    simp only [List.flatMap_cons, List.map_cons, List.flatten_cons,
      List.map_append]
    rw [List.zip_append (by simp)]
    by_cases hML : L = M
    · subst hML
      have h0 : ((List.range (shap L).length).map (fun sid => (L, sid)))
          = (List.range (shap L).length).map (fun j => (L, 0 + j)) := by
        apply List.map_congr_left
        intro j _
        rw [Prod.mk.injEq]
        exact ⟨rfl, by omega⟩
      rw [h0]
      have hhit := dictFind_block_hit L
        (fun sh => pyminR (tsSubs.map (euclid sh))) (shap L) 0 sid
        ((ls.flatMap (fun l => (List.range (shap l).length).map
          (fun sid => (l, sid)))).zip
          (((ls.map shap).flatten).map
            (fun sh => pyminR (tsSubs.map (euclid sh))))) hsid
      simpa using hhit
    · have h0 : ((List.range (shap M).length).map (fun sid => (M, sid)))
          = (List.range (shap M).length).map (fun j => (M, 0 + j)) := by
        apply List.map_congr_left
        intro j _
        rw [Prod.mk.injEq]
        exact ⟨rfl, by omega⟩
      rw [h0]
      rw [dictFind_block_miss M L sid
        (fun sh => pyminR (tsSubs.map (euclid sh))) (shap M) 0 _
        (fun hc => hML hc)]
      have ihx := ih (List.Nodup.of_cons hnd)
        (List.mem_of_ne_of_mem hML hmem)
      unfold bmdEntry bmdKeys bmdDm at ihx
      exact ihx

/-! ## Claim theorems -/

/-- C1: during best-so-far selection, classifier A beats classifier B
(`cmp_classifier A B = -1`) iff `gain(A) > gain(B)`, or `gain(A) = gain(B)`
and `f_c_delta(A) < f_c_delta(B)`; the condition is one strict lexicographic
ordering, not independent threshold checks, and whenever it holds with A the
new candidate and B the incumbent, the loop of `findingshapelets` selects A
— in particular A is selected regardless of margins when
`gain(A) > gain(B)`. -/
theorem cmp_classifier_beats_iff {α : Type} [LinearOrder α]
    (A B : PyClassifier α) :
    (cmp_classifier A B = -1 ↔
      (A.information_gain > B.information_gain ∨
        (A.information_gain = B.information_gain ∧
          A.f_c_delta < B.f_c_delta)))
    ∧ (A.information_gain > B.information_gain →
        bsf_update (some B) A = some A)
    ∧ (A.information_gain = B.information_gain → A.f_c_delta < B.f_c_delta →
        bsf_update (some B) A = some A) := by
  refine ⟨?_, ?_, ?_⟩
  · unfold cmp_classifier
    split
    · rename_i hc
      simpa using hc
    · rename_i hc
      constructor
      · intro h1
        exact absurd h1 (by decide)
      · intro hc'
        exact absurd hc' hc
  · intro hgain
    have hcmp : cmp_classifier B A = 1 := by
      unfold cmp_classifier
      rw [if_neg]
      push_neg
      exact ⟨le_of_lt hgain, fun he => absurd he.symm (ne_of_gt hgain)⟩
    simp [bsf_update, hcmp]
  · intro hgain hfc
    have hcmp : cmp_classifier B A = 1 := by
      unfold cmp_classifier
      rw [if_neg]
      push_neg
      exact ⟨le_of_eq hgain.symm, fun _ => le_of_lt hfc⟩
    simp [bsf_update, hcmp]

/-- Witness for C1 at concrete rational classifiers. -/
theorem cmp_classifier_beats_iff_witness :
    ((3 : ℚ) > 2 →
      bsf_update (some ⟨2, 0, 0⟩) (⟨3, 7, 0⟩ : PyClassifier ℚ) =
        some ⟨3, 7, 0⟩) ∧
    ((3 : ℚ) = 3 → (1 : ℚ) < 2 →
      bsf_update (some ⟨3, 2, 0⟩) (⟨3, 1, 0⟩ : PyClassifier ℚ) =
        some ⟨3, 1, 0⟩) ∧
    (cmp_classifier (⟨3, 7, 0⟩ : PyClassifier ℚ) ⟨2, 0, 0⟩ = -1 ↔
      ((3 : ℚ) > 2 ∨ ((3 : ℚ) = 2 ∧ (7 : ℚ) < 0))) :=
  ⟨fun _ => (cmp_classifier_beats_iff (⟨3, 7, 0⟩ : PyClassifier ℚ)
      ⟨2, 0, 0⟩).2.1 (by decide),
    fun _ _ => (cmp_classifier_beats_iff (⟨3, 1, 0⟩ : PyClassifier ℚ)
      ⟨3, 2, 0⟩).2.2 (by decide) (by decide),
    (cmp_classifier_beats_iff (⟨3, 7, 0⟩ : PyClassifier ℚ) ⟨2, 0, 0⟩).1⟩

/-- C10: `cmp_classifier` never returns `0`; on a pair with equal
information gain and equal `f_c_delta` it returns `1`, so the best-so-far
update replaces the incumbent with the equally-scored newcomer: on exact
ties the later-encountered candidate wins. -/
theorem cmp_classifier_exact_tie_later_wins {α : Type} [LinearOrder α]
    (A B : PyClassifier α) :
    (cmp_classifier A B = -1 ∨ cmp_classifier A B = 1)
    ∧ (A.information_gain = B.information_gain →
        A.f_c_delta = B.f_c_delta →
        cmp_classifier A B = 1 ∧ bsf_update (some A) B = some B) := by
  constructor
  · unfold cmp_classifier
    split
    · exact Or.inl rfl
    · exact Or.inr rfl
  · intro hgain hfc
    have hcmp : cmp_classifier A B = 1 := by
      unfold cmp_classifier
      rw [if_neg]
      push_neg
      exact ⟨le_of_eq hgain, fun _ => le_of_eq hfc.symm⟩
    exact ⟨hcmp, by simp [bsf_update, hcmp]⟩

/-- Witness for C10 at concrete rational classifiers. -/
theorem cmp_classifier_exact_tie_witness :
    ((2 : ℚ) = 2 ∧ (5 : ℚ) = 5) ∧
      cmp_classifier (⟨2, 5, 1⟩ : PyClassifier ℚ) ⟨2, 5, 9⟩ = 1 ∧
      bsf_update (some (⟨2, 5, 1⟩ : PyClassifier ℚ)) ⟨2, 5, 9⟩ =
        some ⟨2, 5, 9⟩ :=
  ⟨⟨rfl, rfl⟩, (cmp_classifier_exact_tie_later_wins (⟨2, 5, 1⟩ : PyClassifier ℚ)
    ⟨2, 5, 9⟩).2 rfl rfl⟩

/-- C3 (amended): for `1 ≤ N_max ≤ sl_max`, the window sequence is strictly
increasing, has exactly `N_max` elements, and each element lies in
`(0, sl_max]`.  (As stated over all `sl_max, N_max` the claim fails, see the
counterexample: integer floor division produces repeated zeros when
`sl_max < N_max`.) -/
theorem calc_windows_spec (sl N : ℕ) (h1 : 1 ≤ N) (h2 : N ≤ sl) :
    List.Pairwise (· < ·) (calc_windows sl N)
    ∧ (calc_windows sl N).length = N
    ∧ ∀ x ∈ calc_windows sl N, 0 < x ∧ x ≤ sl := by
  have hN0 : 0 < N := h1
  have hmono : StrictMono (fun i => sl * (i + 1) / N) := by
    apply strictMono_nat_of_lt_succ
    intro n
    have step : sl * (n + 1) / N + 1 ≤ sl * (n + 1 + 1) / N := by
      have h3 : sl * (n + 1) + N ≤ sl * (n + 1 + 1) := by nlinarith
      calc sl * (n + 1) / N + 1 = (sl * (n + 1) + N) / N := by
              rw [Nat.add_div_right _ hN0]
        _ ≤ sl * (n + 1 + 1) / N := Nat.div_le_div_right h3
    omega
  refine ⟨?_, ?_, ?_⟩
  · unfold calc_windows
    rw [List.pairwise_map]
    exact (List.pairwise_lt_range N).imp (fun h => hmono h)
  · simp [calc_windows]
  · intro x hx
    simp only [calc_windows, List.mem_map, List.mem_range] at hx
    obtain ⟨i, hi, rfl⟩ := hx
    constructor
    · have h4 : 1 ≤ sl / N := (Nat.one_le_div_iff hN0).mpr h2
      have h5 : sl / N ≤ sl * (i + 1) / N :=
        Nat.div_le_div_right (by nlinarith)
      omega
    · have h6 : sl * (i + 1) ≤ sl * N := by nlinarith
      calc sl * (i + 1) / N ≤ sl * N / N := Nat.div_le_div_right h6
        _ = sl := Nat.mul_div_cancel sl hN0

/-- Witness for C3 (amended) at `sl_max = 50`, `N_max = 3`
(`calc_windows 50 3 = [16, 33, 50]`). -/
theorem calc_windows_spec_witness :
    (1 ≤ 3 ∧ 3 ≤ 50) ∧
      (List.Pairwise (· < ·) (calc_windows 50 3)
        ∧ (calc_windows 50 3).length = 3
        ∧ ∀ x ∈ calc_windows 50 3, 0 < x ∧ x ≤ 50) :=
  ⟨by decide, calc_windows_spec 50 3 (by decide) (by decide)⟩

/-- Counterexample to C3 as stated: at `sl_max = 1`, `N_max = 3` the window
sequence is `[0, 0, 1]` — not strictly increasing and containing values
outside `(0, sl_max]`. -/
theorem calc_windows_claim_false_at_1_3 :
    ¬(List.Pairwise (· < ·) (calc_windows 1 3)
      ∧ (calc_windows 1 3).length = 3
      ∧ ∀ x ∈ calc_windows 1 3, 0 < x ∧ x ≤ 1) := by decide

/-- C6 (amended): no configuration validation exists — `__init__` stores any
configuration unchanged and never reports an error, and `findingshapelets`
starts computing without any upfront check. -/
theorem init_performs_no_validation (d : ℝ) (N w : ℕ) (s : Option ℝ)
    (sl : ℕ) : init d N w s sl = Except.ok ⟨d, N, w, s, sl⟩ := rfl

/-- Counterexample to C6 as stated: the invalid configuration
`d_max = -1 ≤ 0`, `N_max = 0 < 1` is accepted without any error report. -/
theorem init_accepts_invalid_config :
    init (-1) 0 25 none 50 = Except.ok ⟨-1, 0, 25, none, 50⟩ := rfl

/-- C8: pruning does NOT complete normally when all four extrema index sets
are empty on every axis of the subset: the list passed to `np.concatenate`
is empty and the call raises `ValueError` (modelled as `none`).  A series
with this property exists (e.g. a strictly monotone ramp has no signal
extrema and a constant derivative). -/
theorem prune_ids_all_empty_extrema_raises :
    prune_ids noExtrema noExtrema noExtrema noExtrema [0, 1] 4 20 = none :=
  rfl

/-- Counterexample to C4 as stated: with every extrema index set empty the
claimed offset set would be the (empty) deduplicated union, but pruning
produces no offsets at all — it raises (`none`). -/
theorem prune_ids_claim_false_on_empty_extrema :
    prune_ids noExtrema noExtrema noExtrema noExtrema [0] 2 10 = none := rfl

/-- Counterexample to C7 as stated: `build_classifier` on an empty candidate
pool raises `IndexError` (`shapelets[0]`, modelled as `none`) instead of
yielding no classifier candidates. -/
theorem build_classifier_empty_pool_raises :
    build_classifier (fun _ _ _ _ _ => 0) [] [] "X" [0] 0 = none := rfl

/-- C4 (amended): for every series on which pruning succeeds (at least one
extrema index set over the subset's axes is non-empty — otherwise the code
raises, see the counterexample), the produced start offsets are exactly the
deduplicated set of union-over-axes extrema indices shifted left by half the
window and clamped into `[0, length − window]`, and every candidate anchored
at a surviving offset is in the raw pool of every label the series carries. -/
theorem prune_offsets_and_pools (sig : ℝ) (data : List Series)
    (target : List (List String)) (mn mx dn dx : ℕ → ℕ → List ℕ)
    (dims : List ℕ) (w i : ℕ) (L : String) (out : List ℤ)
    (hi : i < data.length)
    (hout : prune_ids (mn i) (mx i) (dn i) (dx i) dims w
      (shape0 (data.getD i [])) = some out) :
    out.Nodup
    ∧ (∀ x : ℤ, x ∈ out ↔ ∃ a ∈ dims, ∃ j : ℕ,
        (j ∈ mn i a ∨ j ∈ mx i a ∨ j ∈ dn i a ∨ j ∈ dx i a) ∧
          x = clampShift (shape0 (data.getD i [])) w j)
    ∧ (w ≤ shape0 (data.getD i []) → ∀ x ∈ out,
        0 ≤ x ∧ x ≤ (shape0 (data.getD i []) : ℤ) - (w : ℤ))
    ∧ ((target.getD i []).contains L = true →
        ∀ c ∈ (series_candidates sig (data.getD i []) (mn i) (mx i) (dn i)
          (dx i) dims w).getD [],
          c ∈ prune_pool sig data target mn mx dn dx dims w L) := by
  unfold prune_ids at hout
  dsimp only at hout
  split at hout
  · exact Option.noConfusion hout
  · have hX := Option.some_inj.mp hout
    have hmem : ∀ x : ℤ, x ∈ out ↔ ∃ a ∈ dims, ∃ j : ℕ,
        (j ∈ mn i a ∨ j ∈ mx i a ∨ j ∈ dn i a ∨ j ∈ dx i a) ∧
          x = clampShift (shape0 (data.getD i [])) w j := by
      intro x
      rw [← hX, mem_npUnique, mem_flatten_filter_nonempty]
      simp only [List.mem_flatten, List.mem_flatMap, List.mem_cons,
        List.not_mem_nil, or_false]
      constructor
      · rintro ⟨j, ⟨l, ⟨a, ha, hl⟩, hjl⟩, hx⟩
        rcases hl with rfl | rfl | rfl | rfl
        · exact ⟨a, ha, j, Or.inl hjl, hx⟩
        · exact ⟨a, ha, j, Or.inr (Or.inl hjl), hx⟩
        · exact ⟨a, ha, j, Or.inr (Or.inr (Or.inl hjl)), hx⟩
        · exact ⟨a, ha, j, Or.inr (Or.inr (Or.inr hjl)), hx⟩
      · rintro ⟨a, ha, j, hj, hx⟩
        rcases hj with hjl | hjl | hjl | hjl
        · exact ⟨j, ⟨mn i a, ⟨a, ha, Or.inl rfl⟩, hjl⟩, hx⟩
        · exact ⟨j, ⟨mx i a, ⟨a, ha, Or.inr (Or.inl rfl)⟩, hjl⟩, hx⟩
        · exact ⟨j, ⟨dn i a, ⟨a, ha, Or.inr (Or.inr (Or.inl rfl))⟩, hjl⟩, hx⟩
        · exact ⟨j, ⟨dx i a, ⟨a, ha, Or.inr (Or.inr (Or.inr rfl))⟩, hjl⟩, hx⟩
    refine ⟨?_, hmem, ?_, ?_⟩
    · rw [← hX]; exact npUnique_nodup _
    · intro hw x hx
      obtain ⟨a, _, j, _, hxj⟩ := (hmem x).mp hx
      rw [hxj]
      exact clampShift_bounds _ w j hw
    · intro hL c hc
      exact mem_prune_pool sig data target mn mx dn dx dims w i L c hi hL hc

/-- Witness for C4 (amended) on a one-series data set with a single raw
minimum at index 2, window 2 (`prune_ids` yields offset `[1]`). -/
theorem prune_offsets_and_pools_witness :
    (0 < 1 ∧
      prune_ids ((fun _ _ => ([2] : List ℕ)) 0) (noExtremaFam 0)
        (noExtremaFam 0) (noExtremaFam 0) [0] 2
        (shape0 (([[[0, 0, 0, 0, 0]]] : List Series).getD 0 [])) =
          some [1]) ∧
      ([1] : List ℤ).Nodup :=
  ⟨⟨by decide, by decide⟩,
    (prune_offsets_and_pools 0 [[[0, 0, 0, 0, 0]]] [["A"]] (fun _ _ => [2])
      noExtremaFam noExtremaFam noExtremaFam [0] 2 0 "A" [1]
      (by decide) (by decide)).1⟩

/-- C7 (amended): `build_classifier` applied to an empty pool raises
(`IndexError`, modelled as `none`) rather than yielding no candidates; the
error path is however unreachable in a run where pruning succeeds, because
the clustered pool of every label carried by some series is non-empty. -/
theorem empty_pool_errors_and_is_unreachable
    (cache : ℕ → ℕ → String → ℕ → List ℕ → ℝ) (tgt : List ℕ) (lb : String)
    (dims0 : List ℕ) (n : ℕ) (dm sig : ℝ) (data : List Series)
    (target : List (List String)) (mn mx dn dx : ℕ → ℕ → List ℕ)
    (dims : List ℕ) (w i : ℕ) (L : String)
    (hi : i < data.length) (hL : (target.getD i []).contains L = true)
    (hok : prune_ok data mn mx dn dx dims w = true) :
    build_classifier cache [] tgt lb dims0 n = none
    ∧ cluster dm (prune_pool sig data target mn mx dn dx dims w L) ≠ [] := by
  refine ⟨rfl, ?_⟩
  apply cluster_ne_nil
  have hsome : (prune_ids (mn i) (mx i) (dn i) (dx i) dims w
      (shape0 (data.getD i []))).isSome = true := by
    have hall := List.all_eq_true.mp hok i (List.mem_range.mpr hi)
    simpa using hall
  obtain ⟨out, hout⟩ := Option.isSome_iff_exists.mp hsome
  have hne := prune_ids_some_ne_nil (mn i) (mx i) (dn i) (dx i) dims w
    (shape0 (data.getD i [])) out hout
  have hchunk : (series_candidates sig (data.getD i []) (mn i) (mx i) (dn i)
      (dx i) dims w).getD [] ≠ [] := by
    unfold series_candidates
    rw [hout]
    simpa using hne
  obtain ⟨c, hc⟩ := List.exists_mem_of_ne_nil _ hchunk
  exact List.ne_nil_of_mem
    (mem_prune_pool sig data target mn mx dn dx dims w i L c hi hL hc)

/-- Witness for C7 (amended) on the same one-series data set. -/
theorem empty_pool_unreachable_witness :
    (0 < 1 ∧ (([["A"]] : List (List String)).getD 0 []).contains "A" = true ∧
      prune_ok [[[0, 0, 0, 0, 0]]] (fun _ _ => [2]) noExtremaFam
        noExtremaFam noExtremaFam [0] 2 = true) ∧
      cluster 0 (prune_pool 0 [[[0, 0, 0, 0, 0]]] [["A"]] (fun _ _ => [2])
        noExtremaFam noExtremaFam noExtremaFam [0] 2 "A") ≠ [] :=
  ⟨⟨by decide, by decide, by decide⟩,
    (empty_pool_errors_and_is_unreachable (fun _ _ _ _ _ => 0) [] "X" [0] 0 0 0
      [[[0, 0, 0, 0, 0]]] [["A"]] (fun _ _ => [2]) noExtremaFam
      noExtremaFam noExtremaFam [0] 2 0 "A" (by decide) (by decide)
      (by decide)).2⟩

/-- C5: when `sigma_min` is `None` it is estimated once as the maximum, over
the training series carrying no label and over all of their subsequences at
the smallest tested window length, of the per-axis subsequence standard
deviation (every such value is a lower bound witness of maximality); with no
unlabeled series the estimate is `0`; a supplied `sigma_min` is kept. -/
theorem estimate_sigma_min_spec (data : List Series)
    (target : List (List String)) (windows : List ℕ) :
    (estimate_sigma_min none data target windows =
      (((data.zip target).filter (fun p => p.2.isEmpty)).flatMap
        (fun p => subSeqStds p.1 (pymin windows))).foldl max 0)
    ∧ ((data.zip target).filter (fun p => p.2.isEmpty) = [] →
        estimate_sigma_min none data target windows = 0)
    ∧ (∀ s : ℝ, estimate_sigma_min (some s) data target windows = s)
    ∧ (∀ x ∈ ((data.zip target).filter (fun p => p.2.isEmpty)).flatMap
        (fun p => subSeqStds p.1 (pymin windows)),
        x ≤ estimate_sigma_min none data target windows) := by
  have h1 : estimate_sigma_min none data target windows =
      (((data.zip target).filter (fun p => p.2.isEmpty)).flatMap
        (fun p => subSeqStds p.1 (pymin windows))).foldl max 0 := by
    unfold estimate_sigma_min
    exact estimate_fold (fun ts => subSeqStds ts (pymin windows))
      (data.zip target) 0 le_rfl
  refine ⟨h1, ?_, fun s => rfl, ?_⟩
  · intro hemp
    rw [h1, hemp]
    rfl
  · intro x hx
    rw [h1]
    exact mem_le_foldl_max _ 0 x hx

/-- Witness for C5: one labeled series, so the unlabeled filter is empty and
the estimate is `0`. -/
theorem estimate_sigma_min_spec_witness :
    ((([[[0]]] : List Series).zip [["A"]]).filter (fun p => p.2.isEmpty) = []
      ∧ estimate_sigma_min none [[[0]]] [["A"]] [1] = 0) :=
  ⟨rfl, (estimate_sigma_min_spec [[[0]]] [["A"]] [1]).2.1 rfl⟩

/-- C2: the value the precomputed distance cache holds under the key
`(series id, shapelet id, label, window length, dimension subset)` is the
minimum, over all start positions of the (z-normalized) same-length
subsequences of the series restricted to the subset, of the Euclidean
distance between that label's shapelet of that index and the subsequence —
the best-matching distance. -/
theorem dist_shapelet_ts_is_min_distance (sig : ℝ) (data : List Series)
    (labels : List String) (shapMap : String → List ℕ → ℕ → List Cand)
    (ts_id sid : ℕ) (L : String) (w : ℕ) (dims : List ℕ)
    (hnd : labels.Nodup) (hmem : L ∈ labels)
    (hsid : sid < (shapMap L dims w).length) :
    dist_shapelet_ts sig data labels shapMap ts_id sid L w dims =
      some (pyminR (((z_data sig data ts_id w).map (restrictDims dims)).map
        (euclid ((shapMap L dims w).getD sid [])))) :=
  bmdEntry_eq labels (fun M => shapMap M dims w)
    ((z_data sig data ts_id w).map (restrictDims dims)) L sid hnd hmem hsid

/-- Witness for C2 on a one-label, one-shapelet instance. -/
theorem dist_shapelet_ts_witness :
    ((["A"] : List String).Nodup ∧ "A" ∈ (["A"] : List String) ∧
      0 < ((fun _ _ _ => [[[(0 : ℝ)]]]) "A" [0] 1 : List Cand).length) ∧
      dist_shapelet_ts 0 [[[0, 0]]] ["A"] (fun _ _ _ => [[[0]]]) 0 0 "A" 1
          [0] =
        some (pyminR (((z_data 0 [[[0, 0]]] 0 1).map (restrictDims [0])).map
          (euclid (((fun _ _ _ => [[[(0 : ℝ)]]]) "A" [0] 1 :
            List Cand).getD 0 [])))) :=
  ⟨⟨by decide, by decide, by decide⟩,
    dist_shapelet_ts_is_min_distance 0 [[[0, 0]]] ["A"]
      (fun _ _ _ => [[[0]]]) 0 0 "A" 1 [0] (by decide) (by decide)
      (by decide)⟩

/-- C9: the pipeline is deterministic — two runs of `findingshapelets` with
identical data, target, configuration and extrema caches produce identical
outputs; in particular the selected classifiers' `(delta, gain, f_c_delta)`
triples agree.  (All iteration orders of the model are fixed functions of
the inputs, as they are in CPython 2 with its default deterministic string
hashing; the experiment script additionally seeds `np.random`.) -/
theorem findingshapelets_deterministic (cfg cfg' : Config)
    (data data' : List Series) (target target' : List (List String))
    (mn mn' mx mx' dn dn' dx dx' : ℕ → ℕ → List ℕ)
    (hc : cfg = cfg') (hd : data = data') (ht : target = target')
    (h1 : mn = mn') (h2 : mx = mx') (h3 : dn = dn') (h4 : dx = dx') :
    findingshapelets cfg data target mn mx dn dx =
      findingshapelets cfg' data' target' mn' mx' dn' dx'
    ∧ (findingshapelets cfg data target mn mx dn dx).map
        (fun res => res.map (fun p =>
          (p.1, p.2.1.map
            (fun c => (c.delta, c.information_gain, c.f_c_delta)))))
      = (findingshapelets cfg' data' target' mn' mx' dn' dx').map
        (fun res => res.map (fun p =>
          (p.1, p.2.1.map
            (fun c => (c.delta, c.information_gain, c.f_c_delta))))) := by
  subst hc
  subst hd
  subst ht
  subst h1
  subst h2
  subst h3
  subst h4
  exact ⟨rfl, rfl⟩

/-- Witness for C9 at a concrete configuration and data set. -/
theorem findingshapelets_deterministic_witness :
    findingshapelets ⟨1, 1, 1, some 0, 2⟩ [[[0, 0]]] [["A"]]
        (fun _ _ => [1]) noExtremaFam noExtremaFam noExtremaFam =
      findingshapelets ⟨1, 1, 1, some 0, 2⟩ [[[0, 0]]] [["A"]]
        (fun _ _ => [1]) noExtremaFam noExtremaFam noExtremaFam :=
  (findingshapelets_deterministic ⟨1, 1, 1, some 0, 2⟩ ⟨1, 1, 1, some 0, 2⟩
    [[[0, 0]]] [[[0, 0]]] [["A"]] [["A"]] (fun _ _ => [1]) (fun _ _ => [1])
    noExtremaFam noExtremaFam noExtremaFam noExtremaFam
    noExtremaFam noExtremaFam rfl rfl rfl rfl rfl rfl rfl).1

end ShapeletFinder
